import Mathlib

/-!
Shallow embedding of the yamap crawl scripts (Go): the feed data model,
the NUXT snapshot reader, the reaction dispatcher with bounded retry, and
the two walker loop variants (the interleaved walker of
src/unnamed/part_001 and send_reaction.go, and the two-phase collector of
src/main.go), together with theorems about the claims of the spec.
-/

namespace YamapSpec

/-- One entry of an activity's emoji_reactions list (main.go, Activity struct). -/
structure EmojiReaction where
  viewerHasReacted : Bool
deriving Repr, DecidableEq

/-- Activity record inside a feed item (main.go, type Activity). -/
structure Activity where
  id : Int
  emojiReactions : List EmojiReaction
deriving Repr, DecidableEq

/-- Journal record inside a feed item (main.go, type Journal); parsed but never used. -/
structure Journal where
  id : Int
  text : String
deriving Repr, DecidableEq

/-- One item of the timeline feed (main.go, type FeedItem); the activity
pointer is an Option, a journal-only item carries none. -/
structure FeedItem where
  id : Int
  feedableType : String
  activity : Option Activity
  journal : Option Journal
deriving Repr, DecidableEq

/-- Queue entry built from an unseen unreacted activity (type ActivityInfo). -/
structure ActivityInfo where
  url : String
deriving Repr, DecidableEq

/-- The hasReacted computation of processTimeline: scan the emoji_reactions
list for an entry whose viewer_has_reacted flag is set. -/
def hasReactedActivity (a : Activity) : Bool :=
  a.emojiReactions.any (fun r => r.viewerHasReacted)

/-- URL built for an unreacted activity (fmt.Sprintf in processTimeline). -/
def urlOf (i : Int) : String :=
  "https://yamap.com/activities/" ++ toString i

/-! ## FeedSnapshotReader: parseNuxtData (src/main.go lines 51-81) -/

/-- Error outcomes of parseNuxtData. -/
inductive PErr
  | evalFailed
  | unmarshalFailed (raw : String)
deriving Repr, DecidableEq

/-- Result of evaluating the NUXT extraction script in the page:
either the chromedp round-trip errored, or it produced a raw JSON text
(chromedp serializes the returned object; an absent state returns null). -/
inductive EvalRes
  | errored
  | raw (s : String)
deriving Repr, DecidableEq

/-- parseNuxtData of src/main.go: an evaluation error is an error; an empty
or null payload is a successful empty feed; otherwise json.Unmarshal
(abstracted as the decode parameter) either yields the items or fails,
carrying the raw payload. -/
def parseNuxtData (decode : String → Option (List FeedItem)) : EvalRes → Except PErr (List FeedItem)
  | .errored => .error .evalFailed
  | .raw s =>
    if s.length = 0 ∨ s = "null" then .ok []
    else
      match decode s with
      | some items => .ok items
      | none => .error (.unmarshalFailed s)

/-! ## ReactionDispatcher: sendReaction (src/unnamed/part_001 lines 306-364,
identical in structure to src/send_reaction.go lines 270-317).

The browser session is modeled by its current page URL.  The per-attempt
click sequence and the reload recovery are abstracted as oracles giving
the outcome of the i-th attempt and the i-th reload. -/

/-- The driver: a browser session, modeled by the page it is on. -/
structure Driver where
  page : String
deriving Repr, DecidableEq

/-- Errors sendReaction can return; reactionFailed wraps the last
underlying attempt error (the %w wrapping of the Go code). -/
inductive SRErr
  | pageLoad
  | reloadWait
  | reactionFailed (last : String)
deriving Repr, DecidableEq

/-- Status of the retry loop of sendReaction. -/
inductive SRStatus
  | liked
  | reloadFail
  | exhausted (last : String)
deriving Repr, DecidableEq

/-- The retry loop of sendReaction (for i := 0; i < 3; i++): attempt i
either succeeds (none) or fails with an error; on failure with attempts
remaining (i < 2) the page is reloaded; a failed reload aborts at once.
Returns the status, the number of attempts executed, and the number of
successful reload recoveries executed.  fuel is the number of loop
iterations remaining (3 - i at entry). -/
def srLoop (attempt : Nat → Option String) (reloadOk : Nat → Bool) :
    Nat → Nat → String → SRStatus × Nat × Nat
  | 0, _, last => (.exhausted last, 0, 0)
  | fuel + 1, i, _ =>
    match attempt i with
    | none => (.liked, 1, 0)
    | some e =>
      if i < 2 then
        if reloadOk i then
          let r := srLoop attempt reloadOk fuel (i + 1) e
          (r.1, r.2.1 + 1, r.2.2 + 1)
        else (.reloadFail, 1, 0)
      else
        let r := srLoop attempt reloadOk fuel (i + 1) e
        (r.1, r.2.1 + 1, r.2.2)

/-- Full result of one dispatch: the (liked, error) pair returned by the
Go function, the attempt and reload counts, and the driver afterwards. -/
structure SRResult where
  liked : Bool
  err : Option SRErr
  attempts : Nat
  reloads : Nat
  driver : Driver
deriving Repr, DecidableEq

/-- sendReaction of src/unnamed/part_001: navigate to the item URL and wait
for the reaction affordance (navOk); run the 3-attempt retry loop; and -
in a deferred step executed on every path - navigate the driver back to
the timeline URL (backNavOk tells whether that navigation succeeds). -/
def sendReaction (navOk : Bool) (attempt : Nat → Option String) (reloadOk : Nat → Bool)
    (backNavOk : Bool) (url timelineURL : String) (d : Driver) : SRResult :=
  let afterNav : String := if navOk then url else d.page
  let core : Bool × Option SRErr × Nat × Nat :=
    if navOk then
      match srLoop attempt reloadOk 3 0 "" with
      | (.liked, a, r) => (true, none, a, r)
      | (.reloadFail, a, r) => (false, some .reloadWait, a, r)
      | (.exhausted last, a, r) => (false, some (.reactionFailed last), a, r)
    else (false, some .pageLoad, 0, 0)
  let finalPage : String := if backNavOk then timelineURL else afterNav
  { liked := core.1, err := core.2.1, attempts := core.2.2.1, reloads := core.2.2.2,
    driver := { page := finalPage } }

/-! ## ReactionDispatcher, main.go variant: sendReaction of src/main.go
lines 512-579.  Unlike the part_001 dispatcher, each attempt has two
stages: a first chromedp.Run that clicks the reaction affordance and
waits for the picker (openP), whose failure hits continue - retrying
WITHOUT a reload - and a second Run that selects the emoji (sel), whose
failure checks the context (ctxOk) and then reloads when attempts
remain.  There is no deferred back-navigation. -/

/-- Errors main.go's sendReaction can return; reactionFailed wraps the
last underlying attempt error. -/
inductive SRMErr
  | pageLoad
  | buttonWait
  | reloadWait
  | reactionFailed (last : String)
deriving Repr, DecidableEq

/-- The retry loop of main.go's sendReaction (for i := 0; i < 3; i++):
if the affordance-click/picker-open Run fails, record the error and
continue (no reload); otherwise run the emoji-selection Run - success
returns liked, failure breaks out when the context has expired, and
otherwise reloads when i < 2 (a failed reload aborts at once).  Returns
the status, the attempts executed, and the reloads executed; fuel is
the number of loop iterations remaining. -/
def srLoopMain (openP sel : Nat → Option String) (ctxOk reloadOk : Nat → Bool) :
    Nat → Nat → String → SRStatus × Nat × Nat
  | 0, _, last => (.exhausted last, 0, 0)
  | fuel + 1, i, _ =>
    match openP i with
    | some e =>
      let r := srLoopMain openP sel ctxOk reloadOk fuel (i + 1) e
      (r.1, r.2.1 + 1, r.2.2)
    | none =>
      match sel i with
      | none => (.liked, 1, 0)
      | some e =>
        if ctxOk i then
          if i < 2 then
            if reloadOk i then
              let r := srLoopMain openP sel ctxOk reloadOk fuel (i + 1) e
              (r.1, r.2.1 + 1, r.2.2 + 1)
            else (.reloadFail, 1, 0)
          else
            let r := srLoopMain openP sel ctxOk reloadOk fuel (i + 1) e
            (r.1, r.2.1 + 1, r.2.2)
        else (.exhausted e, 1, 0)

/-- The (liked, error) pair returned by main.go's sendReaction, with the
attempt and reload counts. -/
structure SRMResult where
  liked : Bool
  err : Option SRMErr
  attempts : Nat
  reloads : Nat
deriving Repr, DecidableEq

/-- sendReaction of src/main.go: navigate and wait for the page footer
(navOk), scroll and wait for the reaction affordance (btnOk) - each
failure is terminal for the item - then run the two-stage retry loop. -/
def sendReactionMain (navOk btnOk : Bool) (openP sel : Nat → Option String)
    (ctxOk reloadOk : Nat → Bool) : SRMResult :=
  if navOk then
    if btnOk then
      match srLoopMain openP sel ctxOk reloadOk 3 0 "" with
      | (.liked, a, r) => { liked := true, err := none, attempts := a, reloads := r }
      | (.reloadFail, a, r) =>
        { liked := false, err := some .reloadWait, attempts := a, reloads := r }
      | (.exhausted last, a, r) =>
        { liked := false, err := some (.reactionFailed last), attempts := a, reloads := r }
    else { liked := false, err := some .buttonWait, attempts := 0, reloads := 0 }
  else { liked := false, err := some .pageLoad, attempts := 0, reloads := 0 }

/-! ## FeedWalker, interleaved variant: processTimeline of
src/unnamed/part_001 lines 191-304 (the same loop shape as
src/send_reaction.go lines 126-268).

Each loop iteration consumes one Round of scripted environment: whether
the overall deadline has fired at the loop head, whether the session
guard finds the driver off the timeline and whether its recovery
navigation fails, the outcome of the snapshot read (wait or poll error,
decode error, or a list of feed items), the reported page height (none
models a failed height evaluation), and whether the scroll command
fails.  The outcome of dispatching one queued URL comes from the react
oracle.  The enq and disp fields of the state are instrumentation
traces, not present in the Go code: enq records each activity id at the
moment it is appended to activitiesToProcess, disp records each URL at
the moment sendReaction is called for it. -/

/-- Outcome of the snapshot read at the head of a walker round. -/
inductive Fetch
  | waitErr
  | decodeErr
  | ok (items : List FeedItem)
deriving Repr, DecidableEq

/-- Scripted environment for one iteration of the walker loop. -/
structure Round where
  deadline : Bool
  guardOff : Bool
  guardFail : Bool
  fetch : Fetch
  height : Option Int
  scrollFail : Bool
deriving Repr, DecidableEq

/-- Loop state of processTimeline (part_001): seenActivityIDs,
successfulReactions, noNewContentCount, lastHeight, plus the enq/disp
instrumentation traces. -/
structure WState where
  seen : List Int
  success : Nat
  noNew : Nat
  lastHeight : Int
  enq : List Int
  disp : List String
deriving Repr, DecidableEq

/-- How the walker loop ended. -/
inductive Exit
  | deadline
  | guardError
  | stagnant
  | heightError
  | scrollError
  | targetReached
  | fuelOut
deriving Repr, DecidableEq

/-- Initial walker state. -/
def initW : WState :=
  { seen := [], success := 0, noNew := 0, lastHeight := 0, enq := [], disp := [] }

/-- Discovery body for one feed item (part_001 lines 233-257): skip a nil
activity or a zero id; skip a seen id; otherwise insert the id into the
seen set, then compute hasReacted, and only if unreacted append its URL
to the round's queue (recording the id in the enq trace). -/
def discoverItem (st : WState) (item : FeedItem) (queue : List ActivityInfo) :
    WState × List ActivityInfo :=
  match item.activity with
  | none => (st, queue)
  | some a =>
    if a.id = 0 then (st, queue)
    else if a.id ∈ st.seen then (st, queue)
    else
      let st1 := { st with seen := st.seen ++ [a.id] }
      if hasReactedActivity a then (st1, queue)
      else ({ st1 with enq := st1.enq ++ [a.id] }, queue ++ [{ url := urlOf a.id }])

/-- Discovery over one snapshot: fold discoverItem over the items. -/
def discoverList (st : WState) (queue : List ActivityInfo) :
    List FeedItem → WState × List ActivityInfo
  | [] => (st, queue)
  | item :: rest =>
    let p := discoverItem st item queue
    discoverList p.1 p.2 rest

/-- Dispatch phase of one round (part_001 lines 269-291): call
sendReaction for each queued item in order; on a like increment
successfulReactions and, the moment it reaches the target, goto end
(returning true), abandoning the remaining queued items. -/
def dispatchRound (react : String → Bool) (target : Nat) (st : WState) :
    List ActivityInfo → WState × Bool
  | [] => (st, false)
  | a :: rest =>
    let st1 := { st with disp := st.disp ++ [a.url] }
    if react a.url then
      let st2 := { st1 with success := st1.success + 1 }
      if target ≤ st2.success then (st2, true)
      else dispatchRound react target st2 rest
    else dispatchRound react target st1 rest

/-- Scroll phase (part_001 lines 293-303 and the scroll label): stop if
the target was reached; stop on a height-read failure; stop when
noNewContentCount is positive, the height is unchanged and
noNewContentCount has reached 3; otherwise record the height, scroll
(stopping on a scroll failure) and continue. -/
def scrollStep (r : Round) (target : Nat) (st : WState) : WState × Option Exit :=
  if target ≤ st.success then (st, some .targetReached)
  else
    match r.height with
    | none => (st, some .heightError)
    | some h =>
      if 0 < st.noNew ∧ h = st.lastHeight ∧ 3 ≤ st.noNew then (st, some .stagnant)
      else
        let st1 := { st with lastHeight := h }
        if r.scrollFail then (st1, some .scrollError) else (st1, none)

/-- One iteration of the walker loop: the loop guard, the deadline
select, the session-guard check, the snapshot read (errors jump to the
scroll phase), discovery, the noNewContentCount update, dispatch, and
the scroll phase. -/
def walkerRound (react : String → Bool) (target : Nat) (r : Round) (st : WState) :
    WState × Option Exit :=
  if target ≤ st.success then (st, some .targetReached)
  else if r.deadline then (st, some .deadline)
  else if r.guardOff ∧ r.guardFail then (st, some .guardError)
  else
    match r.fetch with
    | .waitErr => scrollStep r target st
    | .decodeErr => scrollStep r target st
    | .ok items =>
      let p := discoverList st [] items
      let st1 :=
        if p.2.isEmpty then { p.1 with noNew := p.1.noNew + 1 }
        else { p.1 with noNew := 0 }
      let q := dispatchRound react target st1 p.2
      if q.2 then (q.1, some .targetReached) else scrollStep r target q.1

/-- The walker loop over a list of scripted rounds; an exhausted round
list ends the run with the fuelOut marker. -/
def walkerRun (react : String → Bool) (target : Nat) :
    List Round → WState → WState × Exit
  | [], st => (st, .fuelOut)
  | r :: rest, st =>
    match walkerRound react target r st with
    | (st1, none) => walkerRun react target rest st1
    | (st1, some e) => (st1, e)

/-! ## FeedWalker, two-phase variant: processTimeline of src/main.go
lines 401-510 - first a collection loop over snapshots, then a dispatch
pass over the collected queue. -/

/-- State of the collection loop of main.go's processTimeline:
seenActivityIDs, the persistent activitiesToProcess queue,
noNewContentCount, lastHeight, and the enq instrumentation trace. -/
structure MState where
  seen : List Int
  queue : List ActivityInfo
  noNew : Nat
  lastHeight : Int
  enq : List Int
deriving Repr, DecidableEq

/-- How the collection loop of main.go ended. -/
inductive MExit
  | deadline
  | waitError
  | parseError
  | stagnant
  | heightError
  | scrollError
  | collectedTarget
  | fuelOut
deriving Repr, DecidableEq

/-- Scripted environment for one iteration of main.go's collection loop
(it has no session guard). -/
structure MRound where
  deadline : Bool
  fetch : Fetch
  height : Option Int
  scrollFail : Bool
deriving Repr, DecidableEq

/-- Initial state of main.go's collection loop. -/
def initM : MState :=
  { seen := [], queue := [], noNew := 0, lastHeight := 0, enq := [] }

/-- Discovery with the target cutoff (main.go lines 432-454): the same
per-item body, but after an enqueue, if the queue has reached the
target the loop jumps to the collected label (returning true). -/
def mDiscoverList (target : Nat) (st : MState) : List FeedItem → MState × Bool
  | [] => (st, false)
  | item :: rest =>
    match item.activity with
    | none => mDiscoverList target st rest
    | some a =>
      if a.id = 0 then mDiscoverList target st rest
      else if a.id ∈ st.seen then mDiscoverList target st rest
      else
        let st1 := { st with seen := st.seen ++ [a.id] }
        if hasReactedActivity a then mDiscoverList target st1 rest
        else
          let st2 := { st1 with queue := st1.queue ++ [⟨urlOf a.id⟩], enq := st1.enq ++ [a.id] }
          if target ≤ st2.queue.length then (st2, true)
          else mDiscoverList target st2 rest

/-- One iteration of main.go's collection loop (lines 409-484): the loop
guard on the queue length, the deadline select (which returns the
context error), wait/poll and parse errors (which break out of
collection), discovery with the cutoff, the no-new-content counter with
its threshold of 5, the height read (an unchanged height increments the
counter again), and the scroll. -/
def mCollectRound (target : Nat) (r : MRound) (st : MState) : MState × Option MExit :=
  if target ≤ st.queue.length then (st, some .collectedTarget)
  else if r.deadline then (st, some .deadline)
  else
    match r.fetch with
    | .waitErr => (st, some .waitError)
    | .decodeErr => (st, some .parseError)
    | .ok items =>
      let initialCount := st.queue.length
      let p := mDiscoverList target st items
      if p.2 then (p.1, some .collectedTarget)
      else
        let st1 :=
          if p.1.queue.length = initialCount then { p.1 with noNew := p.1.noNew + 1 }
          else { p.1 with noNew := 0 }
        if 5 ≤ st1.noNew then (st1, some .stagnant)
        else
          match r.height with
          | none => (st1, some .heightError)
          | some h =>
            let st2 := if h = st1.lastHeight then { st1 with noNew := st1.noNew + 1 } else st1
            let st3 := { st2 with lastHeight := h }
            if r.scrollFail then (st3, some .scrollError) else (st3, none)

/-- The collection loop over a list of scripted rounds. -/
def mCollect (target : Nat) : List MRound → MState → MState × MExit
  | [], st => (st, .fuelOut)
  | r :: rest, st =>
    match mCollectRound target r st with
    | (st1, none) => mCollect target rest st1
    | (st1, some e) => (st1, e)

/-- Dispatch pass of main.go (lines 489-506): call sendReaction for each
collected URL in order, appending liked URLs to reactedURLs; after each
item, if the main context has expired (ctxErr at the item's index),
break.  Returns (reactedURLs, dispatched trace). -/
def mDispatch (react : String → Bool) (ctxErr : Nat → Bool) :
    List ActivityInfo → Nat → List String → List String → List String × List String
  | [], _, acc, dtrace => (acc, dtrace)
  | a :: rest, k, acc, dtrace =>
    let dtrace1 := dtrace ++ [a.url]
    let acc1 := if react a.url then acc ++ [a.url] else acc
    if ctxErr k then (acc1, dtrace1)
    else mDispatch react ctxErr rest (k + 1) acc1 dtrace1

/-- The ([]string, error) result of main.go's processTimeline, with the
collection exit and the traces kept for the theorems. -/
structure MResult where
  urls : List String
  isErr : Bool
  exitKind : MExit
  collected : MState
  dispatched : List String
deriving Repr, DecidableEq

/-- processTimeline of src/main.go: run the collection loop; if it ended
on the deadline select, return (nil, ctx.Err()); every other ending
falls through to the collected label and dispatches the queue,
returning (reactedURLs, nil). -/
def processTimelineMain (react : String → Bool) (ctxErr : Nat → Bool) (target : Nat)
    (rounds : List MRound) : MResult :=
  let c := mCollect target rounds initM
  match c.2 with
  | .deadline =>
    { urls := [], isErr := true, exitKind := .deadline, collected := c.1, dispatched := [] }
  | e =>
    let d := mDispatch react ctxErr c.1.queue 0 [] []
    { urls := d.1, isErr := false, exitKind := e, collected := c.1, dispatched := d.2 }

/-- The discovery invariant: the enqueue trace has no duplicates and every
enqueued id is in the seen set. -/
def DiscInv (seen enq : List Int) : Prop :=
  enq.Nodup ∧ ∀ i ∈ enq, i ∈ seen

/-- An id that is in the seen set and not in the enqueue trace: such an id
can never be enqueued later (seen only grows, and enqueueing requires the
id to be unseen). -/
def Pinned (i : Int) (st : WState) : Prop := i ∈ st.seen ∧ i ∉ st.enq

/-- A feed item is stale for a given seen set when it cannot cause an
enqueue: any activity it carries with a non-zero id not in the set is
already reacted. -/
def Stale (seen : List Int) (item : FeedItem) : Prop :=
  ∀ a, item.activity = some a → a.id ≠ 0 → a.id ∉ seen → hasReactedActivity a = true

/-- A scripted round in which the feed yields only stale items, the page
height reads h, and nothing else goes wrong. -/
def StaleWRound (seen0 : List Int) (h : Int) (r : Round) : Prop :=
  r.deadline = false ∧ ¬(r.guardOff = true ∧ r.guardFail = true) ∧ r.scrollFail = false ∧
    r.height = some h ∧ ∃ items, r.fetch = .ok items ∧ ∀ item ∈ items, Stale seen0 item

/-- A scripted collector round in which the feed yields only stale items
and nothing else goes wrong; the height is arbitrary. -/
def StaleMRound (seen0 : List Int) (r : MRound) : Prop :=
  r.deadline = false ∧ r.scrollFail = false ∧ (∃ hv, r.height = some hv) ∧
    ∃ items, r.fetch = .ok items ∧ ∀ item ∈ items, Stale seen0 item


/-! ## Helper lemmas: frame and invariant facts about the walker phases -/

theorem discoverItem_frame (st : WState) (item : FeedItem) (q : List ActivityInfo) :
    (discoverItem st item q).1.success = st.success ∧
    (discoverItem st item q).1.noNew = st.noNew ∧
    (discoverItem st item q).1.lastHeight = st.lastHeight ∧
    (discoverItem st item q).1.disp = st.disp := by
  unfold discoverItem
  cases item.activity with
  | none => exact ⟨rfl, rfl, rfl, rfl⟩
  | some a =>
    simp only
    split_ifs <;> exact ⟨rfl, rfl, rfl, rfl⟩

theorem discoverItem_seen_mono (st : WState) (item : FeedItem) (q : List ActivityInfo) :
    st.seen ⊆ (discoverItem st item q).1.seen := by
  unfold discoverItem
  cases item.activity with
  | none => exact fun _ h => h
  | some a =>
    simp only
    split_ifs <;> first
      | exact fun _ h => h
      | exact fun x h => List.mem_append_left _ h

theorem discoverItem_enq_cases (st : WState) (item : FeedItem) (q : List ActivityInfo) :
    (discoverItem st item q).1.enq = st.enq ∨
      ∃ a, item.activity = some a ∧ a.id ∉ st.seen ∧
        (discoverItem st item q).1.enq = st.enq ++ [a.id] ∧
        a.id ∈ (discoverItem st item q).1.seen := by
  unfold discoverItem
  cases h : item.activity with
  | none => exact Or.inl rfl
  | some a =>
    simp only
    split_ifs with h0 hseen hr
    · exact Or.inl rfl
    · exact Or.inl rfl
    · exact Or.inl rfl
    · refine Or.inr ⟨a, rfl, hseen, rfl, ?_⟩
      simp

theorem discoverItem_inv (st : WState) (item : FeedItem) (q : List ActivityInfo)
    (h : DiscInv st.seen st.enq) :
    DiscInv (discoverItem st item q).1.seen (discoverItem st item q).1.enq := by
  rcases discoverItem_enq_cases st item q with he | ⟨a, _, hnotseen, he, hmem⟩
  · exact ⟨he ▸ h.1, fun i hi => discoverItem_seen_mono st item q (h.2 i (he ▸ hi))⟩
  · constructor
    · rw [he]
      refine List.Nodup.append h.1 (List.nodup_singleton _) ?_
      intro x hx hx1
      rw [List.mem_singleton] at hx1
      exact hnotseen (hx1 ▸ h.2 x hx)
    · intro i hi
      rw [he, List.mem_append, List.mem_singleton] at hi
      rcases hi with hi | hi
      · exact discoverItem_seen_mono st item q (h.2 i hi)
      · exact hi ▸ hmem

theorem discoverList_frame (items : List FeedItem) :
    ∀ (st : WState) (q : List ActivityInfo),
      (discoverList st q items).1.success = st.success ∧
      (discoverList st q items).1.noNew = st.noNew ∧
      (discoverList st q items).1.lastHeight = st.lastHeight ∧
      (discoverList st q items).1.disp = st.disp := by
  induction items with
  | nil => exact fun st q => ⟨rfl, rfl, rfl, rfl⟩
  | cons item rest ih =>
    intro st q
    have h1 := discoverItem_frame st item q
    have h2 := ih (discoverItem st item q).1 (discoverItem st item q).2
    simp only [discoverList]
    exact ⟨h2.1.trans h1.1, h2.2.1.trans h1.2.1, h2.2.2.1.trans h1.2.2.1,
      h2.2.2.2.trans h1.2.2.2⟩

theorem discoverList_seen_mono (items : List FeedItem) :
    ∀ (st : WState) (q : List ActivityInfo), st.seen ⊆ (discoverList st q items).1.seen := by
  induction items with
  | nil => exact fun st q => fun _ h => h
  | cons item rest ih =>
    intro st q
    simp only [discoverList]
    exact (discoverItem_seen_mono st item q).trans (ih _ _)

theorem discoverList_inv (items : List FeedItem) :
    ∀ (st : WState) (q : List ActivityInfo), DiscInv st.seen st.enq →
      DiscInv (discoverList st q items).1.seen (discoverList st q items).1.enq := by
  induction items with
  | nil => exact fun st q h => h
  | cons item rest ih =>
    intro st q h
    simp only [discoverList]
    exact ih _ _ (discoverItem_inv st item q h)

theorem dispatchRound_frame (react : String → Bool) (target : Nat) (l : List ActivityInfo) :
    ∀ st : WState,
      (dispatchRound react target st l).1.seen = st.seen ∧
      (dispatchRound react target st l).1.enq = st.enq ∧
      (dispatchRound react target st l).1.noNew = st.noNew ∧
      (dispatchRound react target st l).1.lastHeight = st.lastHeight := by
  induction l with
  | nil => exact fun st => ⟨rfl, rfl, rfl, rfl⟩
  | cons a rest ih =>
    intro st
    simp only [dispatchRound]
    split_ifs with hr ht
    · exact ⟨rfl, rfl, rfl, rfl⟩
    · exact ih _
    · exact ih _

theorem scrollStep_frame (r : Round) (target : Nat) (st : WState) :
    (scrollStep r target st).1.seen = st.seen ∧
    (scrollStep r target st).1.enq = st.enq ∧
    (scrollStep r target st).1.disp = st.disp ∧
    (scrollStep r target st).1.success = st.success ∧
    (scrollStep r target st).1.noNew = st.noNew := by
  unfold scrollStep
  by_cases h1 : target ≤ st.success
  · simp [h1]
  · simp only [if_neg h1]
    cases r.height with
    | none => simp
    | some h =>
      simp only
      split_ifs <;> simp

theorem dispatchRound_success_le (react : String → Bool) (target : Nat)
    (l : List ActivityInfo) : ∀ st : WState, st.success < target →
      (dispatchRound react target st l).1.success ≤ target := by
  induction l with
  | nil => exact fun st h => Nat.le_of_lt h
  | cons a rest ih =>
    intro st h
    simp only [dispatchRound]
    split_ifs with hr ht
    · simpa using h
    · exact ih _ (Nat.lt_of_not_le (by simpa using ht))
    · exact ih _ h

theorem dispatchRound_hit (react : String → Bool) (target : Nat)
    (l : List ActivityInfo) : ∀ st : WState, st.success < target →
      (dispatchRound react target st l).2 = true →
      (dispatchRound react target st l).1.success = target ∧
      ∃ k, k < l.length ∧
        (dispatchRound react target st l).1.disp =
          st.disp ++ (l.take (k + 1)).map (fun a => a.url) := by
  induction l with
  | nil => intro st _ h; simp [dispatchRound] at h
  | cons a rest ih =>
    intro st hlt hhit
    simp only [dispatchRound] at hhit ⊢
    split_ifs at hhit ⊢ with hr ht
    · refine ⟨?_, 0, by simp, by simp⟩
      have h2 : st.success + 1 = target :=
        Nat.le_antisymm (Nat.succ_le_of_lt hlt) (by simpa using ht)
      simpa using h2
    · have hlt1 : st.success + 1 < target := Nat.lt_of_not_le (by simpa using ht)
      obtain ⟨hsucc, k, hk, hdisp⟩ := ih _ (by simpa using hlt1) hhit
      refine ⟨hsucc, k + 1, by simpa using hk, ?_⟩
      simpa [List.append_assoc] using hdisp
    · obtain ⟨hsucc, k, hk, hdisp⟩ := ih _ (by simpa using hlt) hhit
      refine ⟨hsucc, k + 1, by simpa using hk, ?_⟩
      simpa [List.append_assoc] using hdisp

theorem walkerRound_success_le (react : String → Bool) (target : Nat) (r : Round)
    (st : WState) (h : st.success ≤ target) :
    (walkerRound react target r st).1.success ≤ target := by
  unfold walkerRound
  by_cases h1 : target ≤ st.success
  · simpa [h1]
  · simp only [if_neg h1]
    by_cases h2 : r.deadline <;> simp only [h2, if_true, if_false]
    · exact h
    · by_cases h3 : r.guardOff = true ∧ r.guardFail = true <;>
        simp only [h3, if_true, if_false]
      · exact h
      · cases hf : r.fetch with
        | waitErr => exact (scrollStep_frame r target st).2.2.2.1 ▸ h
        | decodeErr => exact (scrollStep_frame r target st).2.2.2.1 ▸ h
        | ok items =>
          simp only
          have hlt : st.success < target := Nat.lt_of_not_le h1
          have hds := discoverList_frame items st []
          set p := discoverList st [] items with hp
          set st1 := if p.2.isEmpty then { p.1 with noNew := p.1.noNew + 1 }
            else { p.1 with noNew := 0 } with hst1
          have hst1succ : st1.success = st.success := by
            rw [hst1]; split_ifs <;> simpa using hds.1
          have hq := dispatchRound_success_le react target (p.2) st1 (hst1succ ▸ hlt)
          set q := dispatchRound react target st1 p.2 with hqdef
          by_cases h4 : q.2 = true
          · simpa [h4] using hq
          · simp only [h4, if_false, Bool.false_eq_true]
            exact (scrollStep_frame r target q.1).2.2.2.1 ▸ hq

theorem walkerRun_success_le (react : String → Bool) (target : Nat)
    (rounds : List Round) : ∀ st : WState, st.success ≤ target →
      (walkerRun react target rounds st).1.success ≤ target := by
  induction rounds with
  | nil => exact fun st h => h
  | cons r rest ih =>
    intro st h
    have hr := walkerRound_success_le react target r st h
    cases hE : walkerRound react target r st with
    | mk st1 eopt =>
      rw [hE] at hr
      cases eopt with
      | none =>
        have : walkerRun react target (r :: rest) st = walkerRun react target rest st1 := by
          simp only [walkerRun, hE]
        rw [this]
        exact ih st1 hr
      | some e =>
        have : walkerRun react target (r :: rest) st = (st1, e) := by
          simp only [walkerRun, hE]
        rw [this]
        exact hr

theorem walkerRound_inv (react : String → Bool) (target : Nat) (r : Round)
    (st : WState) (h : DiscInv st.seen st.enq) :
    DiscInv (walkerRound react target r st).1.seen (walkerRound react target r st).1.enq := by
  unfold walkerRound
  by_cases h1 : target ≤ st.success
  · simpa [h1]
  · simp only [if_neg h1]
    by_cases h2 : r.deadline <;> simp only [h2, if_true, if_false]
    · exact h
    · by_cases h3 : r.guardOff = true ∧ r.guardFail = true <;>
        simp only [h3, if_true, if_false]
      · exact h
      · cases hf : r.fetch with
        | waitErr =>
          have hfr := scrollStep_frame r target st
          have hgoal : DiscInv (scrollStep r target st).1.seen (scrollStep r target st).1.enq := by
            rw [hfr.1, hfr.2.1]; exact h
          exact hgoal
        | decodeErr =>
          have hfr := scrollStep_frame r target st
          have hgoal : DiscInv (scrollStep r target st).1.seen (scrollStep r target st).1.enq := by
            rw [hfr.1, hfr.2.1]; exact h
          exact hgoal
        | ok items =>
          simp only
          have hinv := discoverList_inv items st [] h
          set p := discoverList st [] items with hp
          set st1 := if p.2.isEmpty then { p.1 with noNew := p.1.noNew + 1 }
            else { p.1 with noNew := 0 } with hst1
          have hinv1 : DiscInv st1.seen st1.enq := by
            rw [hst1]; split_ifs <;> exact hinv
          have hdf := dispatchRound_frame react target p.2 st1
          set q := dispatchRound react target st1 p.2 with hq
          have hinv2 : DiscInv q.1.seen q.1.enq := by
            rw [hdf.1, hdf.2.1]; exact hinv1
          by_cases h4 : q.2 = true
          · simpa [h4] using hinv2
          · simp only [h4, if_false, Bool.false_eq_true]
            have hfr := scrollStep_frame r target q.1
            have hgoal : DiscInv (scrollStep r target q.1).1.seen
                (scrollStep r target q.1).1.enq := by
              rw [hfr.1, hfr.2.1]; exact hinv2
            exact hgoal

theorem walkerRun_inv (react : String → Bool) (target : Nat) (rounds : List Round) :
    ∀ st : WState, DiscInv st.seen st.enq →
      DiscInv (walkerRun react target rounds st).1.seen
        (walkerRun react target rounds st).1.enq := by
  induction rounds with
  | nil => exact fun st h => h
  | cons r rest ih =>
    intro st h
    have hr := walkerRound_inv react target r st h
    cases hE : walkerRound react target r st with
    | mk st1 eopt =>
      rw [hE] at hr
      cases eopt with
      | none =>
        have heq : walkerRun react target (r :: rest) st = walkerRun react target rest st1 := by
          simp only [walkerRun, hE]
        rw [heq]
        exact ih st1 hr
      | some e =>
        have heq : walkerRun react target (r :: rest) st = (st1, e) := by
          simp only [walkerRun, hE]
        rw [heq]
        exact hr

theorem discoverItem_pinned (i : Int) (st : WState) (item : FeedItem)
    (q : List ActivityInfo) (h : Pinned i st) : Pinned i (discoverItem st item q).1 := by
  have hm := discoverItem_seen_mono st item q
  rcases discoverItem_enq_cases st item q with he | ⟨a, _, hnotseen, he, _⟩
  · exact ⟨hm h.1, he ▸ h.2⟩
  · refine ⟨hm h.1, ?_⟩
    rw [he, List.mem_append, List.mem_singleton]
    rintro (hc | hc)
    · exact h.2 hc
    · exact hnotseen (hc ▸ h.1)

theorem discoverList_pinned (i : Int) (items : List FeedItem) :
    ∀ (st : WState) (q : List ActivityInfo), Pinned i st →
      Pinned i (discoverList st q items).1 := by
  induction items with
  | nil => exact fun st q h => h
  | cons item rest ih =>
    intro st q h
    simp only [discoverList]
    exact ih _ _ (discoverItem_pinned i st item q h)

theorem walkerRound_pinned (i : Int) (react : String → Bool) (target : Nat) (r : Round)
    (st : WState) (h : Pinned i st) : Pinned i (walkerRound react target r st).1 := by
  unfold walkerRound
  by_cases h1 : target ≤ st.success
  · simpa [h1]
  · simp only [if_neg h1]
    by_cases h2 : r.deadline <;> simp only [h2, if_true, if_false]
    · exact h
    · by_cases h3 : r.guardOff = true ∧ r.guardFail = true <;>
        simp only [h3, if_true, if_false]
      · exact h
      · cases hf : r.fetch with
        | waitErr =>
          have hfr := scrollStep_frame r target st
          exact ⟨hfr.1 ▸ h.1, hfr.2.1 ▸ h.2⟩
        | decodeErr =>
          have hfr := scrollStep_frame r target st
          exact ⟨hfr.1 ▸ h.1, hfr.2.1 ▸ h.2⟩
        | ok items =>
          simp only
          have hpin := discoverList_pinned i items st [] h
          set p := discoverList st [] items with hp
          set st1 := if p.2.isEmpty then { p.1 with noNew := p.1.noNew + 1 }
            else { p.1 with noNew := 0 } with hst1
          have hpin1 : Pinned i st1 := by
            rw [hst1]; split_ifs <;> exact hpin
          have hdf := dispatchRound_frame react target p.2 st1
          set q := dispatchRound react target st1 p.2 with hq
          have hpin2 : Pinned i q.1 := ⟨hdf.1 ▸ hpin1.1, hdf.2.1 ▸ hpin1.2⟩
          by_cases h4 : q.2 = true
          · simpa [h4] using hpin2
          · simp only [h4, if_false, Bool.false_eq_true]
            have hfr := scrollStep_frame r target q.1
            exact ⟨hfr.1 ▸ hpin2.1, hfr.2.1 ▸ hpin2.2⟩

theorem walkerRun_pinned (i : Int) (react : String → Bool) (target : Nat)
    (rounds : List Round) : ∀ st : WState, Pinned i st →
      Pinned i (walkerRun react target rounds st).1 := by
  induction rounds with
  | nil => exact fun st h => h
  | cons r rest ih =>
    intro st h
    have hr := walkerRound_pinned i react target r st h
    cases hE : walkerRound react target r st with
    | mk st1 eopt =>
      rw [hE] at hr
      cases eopt with
      | none =>
        have heq : walkerRun react target (r :: rest) st = walkerRun react target rest st1 := by
          simp only [walkerRun, hE]
        rw [heq]
        exact ih st1 hr
      | some e =>
        have heq : walkerRun react target (r :: rest) st = (st1, e) := by
          simp only [walkerRun, hE]
        rw [heq]
        exact hr

theorem discoverItem_reacted_skip (st : WState) (item : FeedItem) (q : List ActivityInfo)
    (a : Activity) (ha : item.activity = some a) (hr : hasReactedActivity a = true) :
    (discoverItem st item q).2 = q ∧ (discoverItem st item q).1.enq = st.enq := by
  unfold discoverItem
  rw [ha]
  simp only
  split_ifs with h0 hseen
  any_goals exact ⟨rfl, rfl⟩

theorem discoverItem_reacted_seen (st : WState) (item : FeedItem) (q : List ActivityInfo)
    (a : Activity) (ha : item.activity = some a) (h0 : a.id ≠ 0) (hs : a.id ∉ st.seen)
    (hr : hasReactedActivity a = true) :
    discoverItem st item q = ({ st with seen := st.seen ++ [a.id] }, q) := by
  unfold discoverItem
  rw [ha]
  simp [h0, hs, hr]

/-- The walker round on a decode failure reduces to the scroll phase
applied to the unchanged state. -/
theorem walkerRound_decodeErr (react : String → Bool) (target : Nat) (r : Round)
    (st : WState) (h1 : st.success < target) (h2 : r.deadline = false)
    (h3 : ¬(r.guardOff = true ∧ r.guardFail = true)) (hf : r.fetch = .decodeErr) :
    walkerRound react target r st = scrollStep r target st := by
  unfold walkerRound
  rw [if_neg (Nat.not_le_of_lt h1), h2, hf]
  simp [h3]

/-- The walker round on a wait or poll failure (absent feed data) reduces
to the scroll phase applied to the unchanged state. -/
theorem walkerRound_waitErr (react : String → Bool) (target : Nat) (r : Round)
    (st : WState) (h1 : st.success < target) (h2 : r.deadline = false)
    (h3 : ¬(r.guardOff = true ∧ r.guardFail = true)) (hf : r.fetch = .waitErr) :
    walkerRound react target r st = scrollStep r target st := by
  unfold walkerRound
  rw [if_neg (Nat.not_le_of_lt h1), h2, hf]
  simp [h3]

/-- Unfolding the walker run one round at a time. -/
theorem walkerRun_cons (react : String → Bool) (target : Nat) (r : Round)
    (rest : List Round) (st : WState) :
    walkerRun react target (r :: rest) st =
      match walkerRound react target r st with
      | (st1, none) => walkerRun react target rest st1
      | (st1, some e) => (st1, e) := rfl

/-! ## Stagnation: feeds that stop producing previously-unseen unreacted ids -/

theorem Stale.mono {seen seen2 : List Int} {item : FeedItem}
    (h : Stale seen item) (hs : seen ⊆ seen2) : Stale seen2 item :=
  fun a ha h0 hmem => h a ha h0 (fun hc => hmem (hs hc))

theorem discoverItem_stale (st : WState) (item : FeedItem) (q : List ActivityInfo)
    (h : Stale st.seen item) :
    (discoverItem st item q).2 = q ∧ (discoverItem st item q).1.enq = st.enq := by
  unfold discoverItem
  cases ha : item.activity with
  | none => exact ⟨rfl, rfl⟩
  | some a =>
    simp only
    split_ifs with h0 hseen hr
    · exact ⟨rfl, rfl⟩
    · exact ⟨rfl, rfl⟩
    · exact ⟨rfl, rfl⟩
    · exact absurd (h a ha h0 hseen) (by simpa using hr)

theorem discoverList_stale (seen0 : List Int) (items : List FeedItem)
    (hall : ∀ item ∈ items, Stale seen0 item) :
    ∀ (st : WState) (q : List ActivityInfo), seen0 ⊆ st.seen →
      (discoverList st q items).2 = q ∧ seen0 ⊆ (discoverList st q items).1.seen := by
  induction items with
  | nil => exact fun st q hs => ⟨rfl, hs⟩
  | cons item rest ih =>
    intro st q hs
    have hst : Stale st.seen item := (hall item (by simp)).mono hs
    have hd := discoverItem_stale st item q hst
    have hmono := discoverItem_seen_mono st item q
    simp only [discoverList]
    rw [hd.1]
    exact ih (fun it hit => hall it (by simp [hit])) (discoverItem st item q).1 q
      (hs.trans hmono)

theorem walkerRound_stale_cases (react : String → Bool) (target : Nat) (r : Round)
    (st : WState) (seen0 : List Int) (h : Int)
    (hr : StaleWRound seen0 h r) (hsub : seen0 ⊆ st.seen) (hlt : st.success < target) :
    (h = st.lastHeight ∧ 2 ≤ st.noNew →
      (walkerRound react target r st).2 = some .stagnant) ∧
    (¬(h = st.lastHeight ∧ 2 ≤ st.noNew) →
      (walkerRound react target r st).2 = none ∧
      (walkerRound react target r st).1.noNew = st.noNew + 1 ∧
      (walkerRound react target r st).1.lastHeight = h ∧
      (walkerRound react target r st).1.success = st.success ∧
      seen0 ⊆ (walkerRound react target r st).1.seen) := by
  obtain ⟨hd, hg, hsf, hh, items, hf, hall⟩ := hr
  have hds := discoverList_stale seen0 items hall st [] hsub
  have hfr := discoverList_frame items st []
  set p := discoverList st [] items with hp
  set st1 : WState := { p.1 with noNew := p.1.noNew + 1 } with hst1
  have hround : walkerRound react target r st = scrollStep r target st1 := by
    unfold walkerRound
    rw [if_neg (Nat.not_le_of_lt hlt), hd, hf]
    simp only [hg, if_false, Bool.false_eq_true, if_neg, ← hp]
    rw [hds.1]
    rfl
  have hsucc1 : st1.success = st.success := hfr.1
  have hnn1 : st1.noNew = st.noNew + 1 := by rw [hst1]; simpa using hfr.2.1
  have hlh1 : st1.lastHeight = st.lastHeight := by rw [hst1]; simpa using hfr.2.2.1
  have hseen1 : seen0 ⊆ st1.seen := hds.2
  have hnotle : ¬target ≤ st1.success := by rw [hsucc1]; exact Nat.not_le_of_lt hlt
  constructor
  · rintro ⟨hhl, hn⟩
    rw [hround]
    unfold scrollStep
    rw [if_neg hnotle, hh]
    simp only
    rw [if_pos ⟨by omega, by rw [hlh1]; exact hhl, by omega⟩]
  · intro hnc
    rw [hround]
    unfold scrollStep
    rw [if_neg hnotle, hh]
    simp only
    rw [if_neg ?ncond]
    case ncond =>
      rw [hfr.2.1, hfr.2.2.1]
      intro hc
      exact hnc ⟨hc.2.1, by omega⟩
    rw [hsf]
    simp only [if_neg (Bool.false_ne_true)]
    refine ⟨by simp, ?_, by simp, ?_, ?_⟩
    · simpa using hnn1
    · simpa using hsucc1
    · simpa using hseen1

theorem walkerRun_stale_aligned (react : String → Bool) (target : Nat) (seen0 : List Int)
    (h : Int) (rs : List Round) :
    ∀ st : WState, (∀ r ∈ rs, StaleWRound seen0 h r) → seen0 ⊆ st.seen →
      st.success < target → st.lastHeight = h → 3 ≤ st.noNew + rs.length →
      1 ≤ rs.length → (walkerRun react target rs st).2 = .stagnant := by
  induction rs with
  | nil => intro st _ _ _ _ _ hlen; simp at hlen
  | cons r rest ih =>
    intro st hall hsub hlt hlh hcount _
    have hc := walkerRound_stale_cases react target r st seen0 h (hall r (by simp)) hsub hlt
    by_cases hcond : h = st.lastHeight ∧ 2 ≤ st.noNew
    · have hexit := hc.1 hcond
      rw [walkerRun_cons]
      rcases hE : walkerRound react target r st with ⟨st1, eopt⟩
      rw [hE] at hexit
      simp only at hexit
      rw [hexit]
    · have hcont := hc.2 hcond
      have hnoNew : ¬2 ≤ st.noNew := fun hn => hcond ⟨hlh.symm, hn⟩
      rw [walkerRun_cons]
      rcases hE : walkerRound react target r st with ⟨st1, eopt⟩
      rw [hE] at hcont
      simp only at hcont
      rw [hcont.1]
      simp only
      refine ih st1 (fun r2 hr2 => hall r2 (by simp [hr2])) hcont.2.2.2.2 ?_ hcont.2.2.1 ?_ ?_
      · rw [hcont.2.2.2.1]; exact hlt
      · rw [hcont.2.1]
        simp only [List.length_cons] at hcount
        omega
      · simp only [List.length_cons] at hcount
        omega

theorem walkerRun_stale (react : String → Bool) (target : Nat) (seen0 : List Int)
    (h : Int) (rs : List Round) (st : WState)
    (hall : ∀ r ∈ rs, StaleWRound seen0 h r) (hsub : seen0 ⊆ st.seen)
    (hlt : st.success < target) (hcount : 3 ≤ st.noNew + rs.length)
    (hlen : 2 ≤ rs.length) : (walkerRun react target rs st).2 = .stagnant := by
  cases rs with
  | nil => simp at hlen
  | cons r rest =>
    have hc := walkerRound_stale_cases react target r st seen0 h (hall r (by simp)) hsub hlt
    by_cases hcond : h = st.lastHeight ∧ 2 ≤ st.noNew
    · have hexit := hc.1 hcond
      rw [walkerRun_cons]
      rcases hE : walkerRound react target r st with ⟨st1, eopt⟩
      rw [hE] at hexit
      simp only at hexit
      rw [hexit]
    · have hcont := hc.2 hcond
      rw [walkerRun_cons]
      rcases hE : walkerRound react target r st with ⟨st1, eopt⟩
      rw [hE] at hcont
      simp only at hcont
      rw [hcont.1]
      simp only
      refine walkerRun_stale_aligned react target seen0 h rest st1
        (fun r2 hr2 => hall r2 (by simp [hr2])) hcont.2.2.2.2 ?_ hcont.2.2.1 ?_ ?_
      · rw [hcont.2.2.2.1]; exact hlt
      · rw [hcont.2.1]
        simp only [List.length_cons] at hcount
        omega
      · simp only [List.length_cons] at hlen
        omega

/-! ## Invariant and stagnation lemmas for the main.go collector -/

theorem discInv_push (seen enq : List Int) (i : Int) (h : DiscInv seen enq)
    (hi : i ∉ seen) : DiscInv (seen ++ [i]) (enq ++ [i]) := by
  constructor
  · refine List.Nodup.append h.1 (List.nodup_singleton _) ?_
    intro x hx hx1
    rw [List.mem_singleton] at hx1
    exact hi (hx1 ▸ h.2 x hx)
  · intro j hj
    rw [List.mem_append, List.mem_singleton] at hj ⊢
    rcases hj with hj | hj
    · exact Or.inl (h.2 j hj)
    · exact Or.inr hj

theorem discInv_grow (seen enq : List Int) (l : List Int) (h : DiscInv seen enq) :
    DiscInv (seen ++ l) enq :=
  ⟨h.1, fun i hi => List.mem_append_left _ (h.2 i hi)⟩

theorem mDiscoverList_inv (target : Nat) (items : List FeedItem) :
    ∀ st : MState, DiscInv st.seen st.enq →
      DiscInv (mDiscoverList target st items).1.seen (mDiscoverList target st items).1.enq := by
  induction items with
  | nil => exact fun st h => h
  | cons item rest ih =>
    intro st h
    simp only [mDiscoverList]
    cases ha : item.activity with
    | none => exact ih st h
    | some a =>
      simp only
      split_ifs with h0 hseen hr hcut
      · exact ih st h
      · exact ih st h
      · exact ih _ (discInv_grow st.seen st.enq [a.id] h)
      · exact discInv_push st.seen st.enq a.id h hseen
      · exact ih _ (discInv_push st.seen st.enq a.id h hseen)

theorem mDiscoverList_pinned (i : Int) (target : Nat) (items : List FeedItem) :
    ∀ st : MState, i ∈ st.seen → i ∉ st.enq →
      i ∈ (mDiscoverList target st items).1.seen ∧
      i ∉ (mDiscoverList target st items).1.enq := by
  induction items with
  | nil => exact fun st h1 h2 => ⟨h1, h2⟩
  | cons item rest ih =>
    intro st h1 h2
    simp only [mDiscoverList]
    cases ha : item.activity with
    | none => exact ih st h1 h2
    | some a =>
      simp only
      split_ifs with h0 hseen hr hcut
      · exact ih st h1 h2
      · exact ih st h1 h2
      · exact ih _ (List.mem_append_left _ h1) h2
      · refine ⟨List.mem_append_left _ h1, ?_⟩
        rw [List.mem_append, List.mem_singleton]
        rintro (hc | hc)
        · exact h2 hc
        · exact hseen (hc ▸ h1)
      · refine ih _ (List.mem_append_left _ h1) ?_
        rw [List.mem_append, List.mem_singleton]
        rintro (hc | hc)
        · exact h2 hc
        · exact hseen (hc ▸ h1)

theorem mCollectRound_inv (target : Nat) (r : MRound) (st : MState)
    (h : DiscInv st.seen st.enq) :
    DiscInv (mCollectRound target r st).1.seen (mCollectRound target r st).1.enq := by
  unfold mCollectRound
  by_cases h1 : target ≤ st.queue.length
  · simpa [h1]
  · simp only [if_neg h1]
    by_cases h2 : r.deadline <;> simp only [h2, if_true, if_false]
    · exact h
    · cases hf : r.fetch with
      | waitErr => exact h
      | decodeErr => exact h
      | ok items =>
        simp only
        have hinv := mDiscoverList_inv target items st h
        set p := mDiscoverList target st items with hp
        by_cases h4 : p.2 = true
        · simpa [h4] using hinv
        · simp only [h4, if_false, Bool.false_eq_true]
          set st1 := if p.1.queue.length = st.queue.length then
            { p.1 with noNew := p.1.noNew + 1 } else { p.1 with noNew := 0 } with hst1
          have hinv1 : DiscInv st1.seen st1.enq := by
            rw [hst1]; split_ifs <;> exact hinv
          by_cases h5 : 5 ≤ st1.noNew
          · simpa [h5] using hinv1
          · simp only [if_neg h5]
            cases hh : r.height with
            | none => exact hinv1
            | some hv =>
              simp only
              split_ifs <;> exact hinv1

theorem mCollect_inv (target : Nat) (rounds : List MRound) :
    ∀ st : MState, DiscInv st.seen st.enq →
      DiscInv (mCollect target rounds st).1.seen (mCollect target rounds st).1.enq := by
  induction rounds with
  | nil => exact fun st h => h
  | cons r rest ih =>
    intro st h
    have hr := mCollectRound_inv target r st h
    cases hE : mCollectRound target r st with
    | mk st1 eopt =>
      rw [hE] at hr
      cases eopt with
      | none =>
        have heq : mCollect target (r :: rest) st = mCollect target rest st1 := by
          simp only [mCollect, hE]
        rw [heq]
        exact ih st1 hr
      | some e =>
        have heq : mCollect target (r :: rest) st = (st1, e) := by
          simp only [mCollect, hE]
        rw [heq]
        exact hr

theorem mCollectRound_pinned (i : Int) (target : Nat) (r : MRound) (st : MState)
    (h1 : i ∈ st.seen) (h2 : i ∉ st.enq) :
    i ∈ (mCollectRound target r st).1.seen ∧ i ∉ (mCollectRound target r st).1.enq := by
  unfold mCollectRound
  by_cases hq : target ≤ st.queue.length
  · simpa [hq] using ⟨h1, h2⟩
  · simp only [if_neg hq]
    by_cases hd : r.deadline <;> simp only [hd, if_true, if_false]
    · exact ⟨h1, h2⟩
    · cases hf : r.fetch with
      | waitErr => exact ⟨h1, h2⟩
      | decodeErr => exact ⟨h1, h2⟩
      | ok items =>
        simp only
        have hpin := mDiscoverList_pinned i target items st h1 h2
        set p := mDiscoverList target st items with hp
        by_cases h4 : p.2 = true
        · simpa [h4] using hpin
        · simp only [h4, if_false, Bool.false_eq_true]
          set st1 := if p.1.queue.length = st.queue.length then
            { p.1 with noNew := p.1.noNew + 1 } else { p.1 with noNew := 0 } with hst1
          have hpin1 : i ∈ st1.seen ∧ i ∉ st1.enq := by
            rw [hst1]; split_ifs <;> exact hpin
          by_cases h5 : 5 ≤ st1.noNew
          · simpa [h5] using hpin1
          · simp only [if_neg h5]
            cases hh : r.height with
            | none => exact hpin1
            | some hv =>
              simp only
              split_ifs <;> exact hpin1

theorem mCollect_pinned (i : Int) (target : Nat) (rounds : List MRound) :
    ∀ st : MState, i ∈ st.seen → i ∉ st.enq →
      i ∈ (mCollect target rounds st).1.seen ∧ i ∉ (mCollect target rounds st).1.enq := by
  induction rounds with
  | nil => exact fun st h1 h2 => ⟨h1, h2⟩
  | cons r rest ih =>
    intro st h1 h2
    have hr := mCollectRound_pinned i target r st h1 h2
    cases hE : mCollectRound target r st with
    | mk st1 eopt =>
      rw [hE] at hr
      cases eopt with
      | none =>
        have heq : mCollect target (r :: rest) st = mCollect target rest st1 := by
          simp only [mCollect, hE]
        rw [heq]
        exact ih st1 hr.1 hr.2
      | some e =>
        have heq : mCollect target (r :: rest) st = (st1, e) := by
          simp only [mCollect, hE]
        rw [heq]
        exact hr

theorem mDiscoverList_stale (target : Nat) (seen0 : List Int) (items : List FeedItem)
    (hall : ∀ item ∈ items, Stale seen0 item) :
    ∀ st : MState, seen0 ⊆ st.seen →
      (mDiscoverList target st items).2 = false ∧
      (mDiscoverList target st items).1.queue = st.queue ∧
      (mDiscoverList target st items).1.noNew = st.noNew ∧
      (mDiscoverList target st items).1.lastHeight = st.lastHeight ∧
      (mDiscoverList target st items).1.enq = st.enq ∧
      seen0 ⊆ (mDiscoverList target st items).1.seen := by
  induction items with
  | nil => exact fun st hs => ⟨rfl, rfl, rfl, rfl, rfl, hs⟩
  | cons item rest ih =>
    intro st hs
    have hst : Stale st.seen item := (hall item (by simp)).mono hs
    simp only [mDiscoverList]
    cases ha : item.activity with
    | none => exact ih (fun it hit => hall it (by simp [hit])) st hs
    | some a =>
      simp only
      split_ifs with h0 hseen hr
      · exact ih (fun it hit => hall it (by simp [hit])) st hs
      · exact ih (fun it hit => hall it (by simp [hit])) st hs
      · have := ih (fun it hit => hall it (by simp [hit]))
          { st with seen := st.seen ++ [a.id] }
          (hs.trans (List.subset_append_left _ _))
        simpa using this
      all_goals exact absurd (hst a ha h0 hseen) (by simpa using hr)

theorem mCollectRound_stale_cases (target : Nat) (r : MRound) (st : MState)
    (seen0 : List Int) (hr : StaleMRound seen0 r) (hsub : seen0 ⊆ st.seen)
    (hlt : st.queue.length < target) :
    (4 ≤ st.noNew → (mCollectRound target r st).2 = some .stagnant) ∧
    (¬4 ≤ st.noNew →
      (mCollectRound target r st).2 = none ∧
      st.noNew + 1 ≤ (mCollectRound target r st).1.noNew ∧
      (mCollectRound target r st).1.queue = st.queue ∧
      seen0 ⊆ (mCollectRound target r st).1.seen) := by
  obtain ⟨hd, hsf, ⟨hv, hh⟩, items, hf, hall⟩ := hr
  have hds := mDiscoverList_stale target seen0 items hall st hsub
  unfold mCollectRound
  rw [if_neg (Nat.not_le_of_lt hlt), hd, hf]
  simp only [Bool.false_eq_true, if_neg, if_false]
  set p := mDiscoverList target st items with hp
  rw [hds.1]
  simp only [Bool.false_eq_true, if_neg, if_false]
  have hlen : p.1.queue.length = st.queue.length := by rw [hds.2.1]
  rw [if_pos hlen]
  have hnn : p.1.noNew = st.noNew := hds.2.2.1
  constructor
  · intro h4
    rw [if_pos (by simp [hnn]; omega)]
  · intro h4
    rw [if_neg (by simp [hnn]; omega), hh]
    simp only [hsf, Bool.false_eq_true, if_false]
    split_ifs with heq
    · refine ⟨trivial, ?_, ?_, ?_⟩
      · simp only
        rw [hnn]
        omega
      · simpa using hds.2.1
      · simpa using hds.2.2.2.2.2
    · refine ⟨trivial, ?_, ?_, ?_⟩
      · simp only
        rw [hnn]
      · simpa using hds.2.1
      · simpa using hds.2.2.2.2.2

theorem mCollect_stale (target : Nat) (seen0 : List Int) (rs : List MRound) :
    ∀ st : MState, (∀ r ∈ rs, StaleMRound seen0 r) → seen0 ⊆ st.seen →
      st.queue.length < target → 5 ≤ st.noNew + rs.length → 1 ≤ rs.length →
      (mCollect target rs st).2 = .stagnant := by
  induction rs with
  | nil => intro st _ _ _ _ hlen; simp at hlen
  | cons r rest ih =>
    intro st hall hsub hlt hcount _
    have hc := mCollectRound_stale_cases target r st seen0 (hall r (by simp)) hsub hlt
    by_cases h4 : 4 ≤ st.noNew
    · have hexit := hc.1 h4
      cases hE : mCollectRound target r st with
      | mk st1 eopt =>
        rw [hE] at hexit
        simp only at hexit
        have heq : mCollect target (r :: rest) st =
            match mCollectRound target r st with
            | (st2, none) => mCollect target rest st2
            | (st2, some e) => (st2, e) := rfl
        rw [heq, hE, hexit]
    · have hcont := hc.2 h4
      cases hE : mCollectRound target r st with
      | mk st1 eopt =>
        rw [hE] at hcont
        simp only at hcont
        have heq : mCollect target (r :: rest) st =
            match mCollectRound target r st with
            | (st2, none) => mCollect target rest st2
            | (st2, some e) => (st2, e) := rfl
        rw [heq, hE, hcont.1]
        simp only
        refine ih st1 (fun r2 hr2 => hall r2 (by simp [hr2])) hcont.2.2.2 ?_ ?_ ?_
        · rw [hcont.2.2.1]; exact hlt
        · simp only [List.length_cons] at hcount
          have := hcont.2.1
          omega
        · simp only [List.length_cons] at hcount
          omega

/-- In the main.go collector, a decode failure ends the collection loop
at once with the state untouched (the Go break out of the for loop):
there is no retry and no transition to the scroll phase. -/
theorem mCollectRound_decodeErr (target : Nat) (r : MRound) (st : MState)
    (h1 : st.queue.length < target) (h2 : r.deadline = false)
    (hf : r.fetch = .decodeErr) : mCollectRound target r st = (st, some .parseError) := by
  unfold mCollectRound
  rw [if_neg (Nat.not_le_of_lt h1), h2, hf]
  rfl

theorem mCollect_cons (target : Nat) (r : MRound) (rest : List MRound) (st : MState) :
    mCollect target (r :: rest) st =
      match mCollectRound target r st with
      | (st1, none) => mCollect target rest st1
      | (st1, some e) => (st1, e) := rfl

/-- processTimelineMain on a collection ending in the deadline select:
the Go code returns (nil, ctx.Err()). -/
theorem processTimelineMain_deadline (react : String → Bool) (ctxErr : Nat → Bool)
    (target : Nat) (rounds : List MRound)
    (h : (mCollect target rounds initM).2 = .deadline) :
    (processTimelineMain react ctxErr target rounds).urls = [] ∧
    (processTimelineMain react ctxErr target rounds).isErr = true := by
  unfold processTimelineMain
  cases hE : mCollect target rounds initM with
  | mk st1 e =>
    rw [hE] at h
    simp only at h
    subst h
    exact ⟨rfl, rfl⟩

/-- processTimelineMain on any collection ending other than the deadline:
the collected queue is dispatched and the returned error is nil. -/
theorem processTimelineMain_noErr (react : String → Bool) (ctxErr : Nat → Bool)
    (target : Nat) (rounds : List MRound)
    (h : (mCollect target rounds initM).2 ≠ .deadline) :
    (processTimelineMain react ctxErr target rounds).isErr = false ∧
    (processTimelineMain react ctxErr target rounds).urls =
      (mDispatch react ctxErr (mCollect target rounds initM).1.queue 0 [] []).1 := by
  unfold processTimelineMain
  cases hE : mCollect target rounds initM with
  | mk st1 e =>
    rw [hE] at h
    simp only at h
    cases e <;> simp_all

/-- When the main context has expired after the current dispatch item,
the dispatch loop of main.go breaks, returning the urls accumulated so
far (including the current item if it was liked). -/
theorem mDispatch_break (react : String → Bool) (ctxErr : Nat → Bool)
    (a : ActivityInfo) (rest : List ActivityInfo) (k : Nat)
    (acc dtrace : List String) (h : ctxErr k = true) :
    mDispatch react ctxErr (a :: rest) k acc dtrace =
      ((if react a.url then acc ++ [a.url] else acc), dtrace ++ [a.url]) := by
  unfold mDispatch
  rw [h]
  simp

/-! ## Claim theorems -/

/-- C1: for every run with target count t the number of successful
reactions never exceeds t, and the dispatch loop stops processing
further queued items the instant successCount reaches t - the dispatched
urls form a strict prefix of the queue and any remaining items in the
same round are abandoned. -/
theorem C1_success_bound_and_instant_stop (react : String → Bool) (target : Nat)
    (rounds : List Round) (st : WState) (queue : List ActivityInfo) :
    (walkerRun react target rounds initW).1.success ≤ target ∧
    (st.success < target →
      (dispatchRound react target st queue).1.success ≤ target ∧
      ((dispatchRound react target st queue).2 = true →
        (dispatchRound react target st queue).1.success = target ∧
        ∃ k, k < queue.length ∧
          (dispatchRound react target st queue).1.disp =
            st.disp ++ (queue.take (k + 1)).map (fun a => a.url))) := by
  refine ⟨walkerRun_success_le react target rounds initW (Nat.zero_le _), fun hlt =>
    ⟨dispatchRound_success_le react target queue st hlt, fun hhit =>
      dispatchRound_hit react target queue st hlt hhit⟩⟩

/-- C1 witness: a concrete dispatch round at target 1 stays within the
bound. -/
theorem C1_success_bound_witness :
    initW.success < 1 ∧
    (dispatchRound (fun _ => true) 1 initW [⟨"u"⟩, ⟨"v"⟩]).1.success ≤ 1 :=
  ⟨by decide,
    ((C1_success_bound_and_instant_stop (fun _ => true) 1 [] initW
      [⟨"u"⟩, ⟨"v"⟩]).2 (by decide)).1⟩

/-- C2: across a whole run no id is enqueued twice - the enqueue trace of
both walker variants has no duplicates and every enqueued id is in the
final seen set - and at the very step an id is enqueued it is already a
member of the seen set. -/
theorem C2_dedup_invariant (react : String → Bool) (target : Nat)
    (rounds : List Round) (mrounds : List MRound) (st : WState) (item : FeedItem)
    (q : List ActivityInfo) (i : Int) :
    ((walkerRun react target rounds initW).1.enq.Nodup ∧
      ∀ j ∈ (walkerRun react target rounds initW).1.enq,
        j ∈ (walkerRun react target rounds initW).1.seen) ∧
    ((mCollect target mrounds initM).1.enq.Nodup ∧
      ∀ j ∈ (mCollect target mrounds initM).1.enq,
        j ∈ (mCollect target mrounds initM).1.seen) ∧
    (i ∈ (discoverItem st item q).1.enq → i ∉ st.enq →
      i ∈ (discoverItem st item q).1.seen) := by
  have hinit : DiscInv (List.nil : List Int) (List.nil : List Int) :=
    ⟨List.nodup_nil, by simp⟩
  refine ⟨walkerRun_inv react target rounds initW hinit,
    mCollect_inv target mrounds initM hinit, ?_⟩
  intro hi hnot
  rcases discoverItem_enq_cases st item q with he | ⟨a, _, _, he, hmem⟩
  · exact absurd (he ▸ hi) hnot
  · rw [he, List.mem_append, List.mem_singleton] at hi
    rcases hi with hi | hi
    · exact absurd hi hnot
    · exact hi ▸ hmem

/-- C2 witness: discovering a fresh unreacted item enqueues its id with
the id already inserted into the seen set. -/
theorem C2_dedup_invariant_witness :
    (5 : Int) ∈ (discoverItem initW ⟨100, "a", some ⟨5, []⟩, none⟩ []).1.enq ∧
    (5 : Int) ∉ initW.enq ∧
    (5 : Int) ∈ (discoverItem initW ⟨100, "a", some ⟨5, []⟩, none⟩ []).1.seen :=
  ⟨by decide, by decide,
    (C2_dedup_invariant (fun _ => true) 1 [] [] initW ⟨100, "a", some ⟨5, []⟩, none⟩
      [] 5).2.2 (by decide) (by decide)⟩

/-- C3: the computed hasReacted flag is true iff the reaction list has an
entry with the viewer-has-reacted flag set, an empty (absent) list gives
false, and an item whose flag is true is never enqueued. -/
theorem C3_reacted_iff_and_skip (a : Activity) (st : WState) (item : FeedItem)
    (q : List ActivityInfo) :
    (hasReactedActivity a = true ↔ ∃ r ∈ a.emojiReactions, r.viewerHasReacted = true) ∧
    (a.emojiReactions = [] → hasReactedActivity a = false) ∧
    (item.activity = some a → hasReactedActivity a = true →
      (discoverItem st item q).2 = q ∧ (discoverItem st item q).1.enq = st.enq) := by
  refine ⟨?_, ?_, fun ha hr => discoverItem_reacted_skip st item q a ha hr⟩
  · simp [hasReactedActivity, List.any_eq_true]
  · intro h
    simp [hasReactedActivity, h]

/-- C3 witness: a reacted item is skipped, leaving the queue and the
enqueue trace untouched. -/
theorem C3_reacted_iff_and_skip_witness :
    (discoverItem initW ⟨100, "a", some ⟨5, [⟨true⟩]⟩, none⟩ []).2 = [] ∧
    (discoverItem initW ⟨100, "a", some ⟨5, [⟨true⟩]⟩, none⟩ []).1.enq = initW.enq :=
  (C3_reacted_iff_and_skip ⟨5, [⟨true⟩]⟩ initW ⟨100, "a", some ⟨5, [⟨true⟩]⟩, none⟩
    []).2.2 rfl (by decide)

/-- C5 counterexample: in main.go's sendReaction an always-failing
reaction-affordance click takes the continue path each time: dispatch
fails wrapping the last underlying error after 3 attempts but with 0
page-reload recoveries, not the claimed 2. -/
theorem C5_counterexample :
    (sendReactionMain true true (fun _ => some "picker") (fun _ => none)
      (fun _ => true) (fun _ => true)).liked = false ∧
    (sendReactionMain true true (fun _ => some "picker") (fun _ => none)
      (fun _ => true) (fun _ => true)).attempts = 3 ∧
    (sendReactionMain true true (fun _ => some "picker") (fun _ => none)
      (fun _ => true) (fun _ => true)).reloads = 0 ∧
    (sendReactionMain true true (fun _ => some "picker") (fun _ => none)
      (fun _ => true) (fun _ => true)).err =
      some (.reactionFailed "picker") ∧
    (0 : Nat) ≠ 2 :=
  ⟨rfl, rfl, rfl, rfl, by decide⟩

/-- C5 amended: an always-failing reaction click makes dispatch return a
failure wrapping the last underlying error after exactly 3 attempts; the
part_001/send_reaction.go dispatcher performs exactly 2 intervening
reload recoveries, and so does main.go's dispatcher when the failing
step is the emoji selection, but in main.go an always-failing
affordance-click/picker-open step retries via continue and performs 0
reloads. -/
theorem C5_retry_exhaustion (attempt openP sel : Nat → Option String)
    (reloadOk ctxOk mReloadOk : Nat → Bool) (backNavOk : Bool)
    (url timelineURL : String) (d : Driver) (e0 e1 e2 f0 f1 f2 g0 g1 g2 : String) :
    (attempt 0 = some e0 → attempt 1 = some e1 → attempt 2 = some e2 →
      reloadOk 0 = true → reloadOk 1 = true →
      (sendReaction true attempt reloadOk backNavOk url timelineURL d).liked = false ∧
      (sendReaction true attempt reloadOk backNavOk url timelineURL d).attempts = 3 ∧
      (sendReaction true attempt reloadOk backNavOk url timelineURL d).reloads = 2 ∧
      (sendReaction true attempt reloadOk backNavOk url timelineURL d).err =
        some (.reactionFailed e2)) ∧
    (openP 0 = none → openP 1 = none → openP 2 = none →
      sel 0 = some f0 → sel 1 = some f1 → sel 2 = some f2 →
      ctxOk 0 = true → ctxOk 1 = true → ctxOk 2 = true →
      mReloadOk 0 = true → mReloadOk 1 = true →
      (sendReactionMain true true openP sel ctxOk mReloadOk).liked = false ∧
      (sendReactionMain true true openP sel ctxOk mReloadOk).attempts = 3 ∧
      (sendReactionMain true true openP sel ctxOk mReloadOk).reloads = 2 ∧
      (sendReactionMain true true openP sel ctxOk mReloadOk).err =
        some (.reactionFailed f2)) ∧
    (openP 0 = some g0 → openP 1 = some g1 → openP 2 = some g2 →
      (sendReactionMain true true openP sel ctxOk mReloadOk).liked = false ∧
      (sendReactionMain true true openP sel ctxOk mReloadOk).attempts = 3 ∧
      (sendReactionMain true true openP sel ctxOk mReloadOk).reloads = 0 ∧
      (sendReactionMain true true openP sel ctxOk mReloadOk).err =
        some (.reactionFailed g2)) := by
  refine ⟨?_, ?_, ?_⟩
  · intro h0 h1 h2 r0 r1
    have hsr : srLoop attempt reloadOk 3 0 "" = (.exhausted e2, 3, 2) := by
      simp [srLoop, h0, h1, h2, r0, r1]
    unfold sendReaction
    rw [hsr]
    exact ⟨rfl, rfl, rfl, rfl⟩
  · intro ho0 ho1 ho2 hs0 hs1 hs2 hc0 hc1 hc2 hr0 hr1
    have hsr : srLoopMain openP sel ctxOk mReloadOk 3 0 "" = (.exhausted f2, 3, 2) := by
      simp [srLoopMain, ho0, ho1, ho2, hs0, hs1, hs2, hc0, hc1, hc2, hr0, hr1]
    unfold sendReactionMain
    rw [hsr]
    exact ⟨rfl, rfl, rfl, rfl⟩
  · intro hg0 hg1 hg2
    have hsr : srLoopMain openP sel ctxOk mReloadOk 3 0 "" = (.exhausted g2, 3, 0) := by
      simp [srLoopMain, hg0, hg1, hg2]
    unfold sendReactionMain
    rw [hsr]
    exact ⟨rfl, rfl, rfl, rfl⟩

/-- C5 witness: concrete always-failing clicks - 2 reloads in the
interleaved dispatcher, 2 for a failing selection step in main.go, and 0
for a failing affordance step in main.go. -/
theorem C5_retry_exhaustion_witness :
    (sendReaction true (fun _ => some "boom") (fun _ => true) true "u" "t"
      ⟨"t"⟩).reloads = 2 ∧
    (sendReactionMain true true (fun _ => none) (fun _ => some "boom")
      (fun _ => true) (fun _ => true)).reloads = 2 ∧
    (sendReactionMain true true (fun _ => some "boom") (fun _ => none)
      (fun _ => true) (fun _ => true)).reloads = 0 :=
  ⟨((C5_retry_exhaustion (fun _ => some "boom") (fun _ => none) (fun _ => some "boom")
      (fun _ => true) (fun _ => true) (fun _ => true) true "u" "t" ⟨"t"⟩
      "boom" "boom" "boom" "boom" "boom" "boom" "x" "x" "x").1
      rfl rfl rfl rfl rfl).2.2.1,
    ((C5_retry_exhaustion (fun _ => some "boom") (fun _ => none) (fun _ => some "boom")
      (fun _ => true) (fun _ => true) (fun _ => true) true "u" "t" ⟨"t"⟩
      "boom" "boom" "boom" "boom" "boom" "boom" "x" "x" "x").2.1
      rfl rfl rfl rfl rfl rfl rfl rfl rfl rfl rfl).2.2.1,
    ((C5_retry_exhaustion (fun _ => some "boom") (fun _ => some "boom") (fun _ => none)
      (fun _ => true) (fun _ => true) (fun _ => true) true "u" "t" ⟨"t"⟩
      "boom" "boom" "boom" "x" "x" "x" "boom" "boom" "boom").2.2
      rfl rfl rfl).2.2.1⟩

/-- C10: a previously-unseen valid activity that is already reacted is
inserted into the seen set (before its reaction status leads to a skip)
with the enqueue trace and queue untouched, and an id in the seen set
that has never been enqueued is never enqueued by any later rounds of
either walker variant. -/
theorem C10_reacted_permanently_excluded (st : WState) (item : FeedItem)
    (q : List ActivityInfo) (a : Activity) (i : Int) (react : String → Bool)
    (target : Nat) (rounds : List Round) (mst : MState) (mrounds : List MRound) :
    (item.activity = some a → a.id ≠ 0 → a.id ∉ st.seen → hasReactedActivity a = true →
      discoverItem st item q = ({ st with seen := st.seen ++ [a.id] }, q)) ∧
    (i ∈ st.seen → i ∉ st.enq → i ∉ (walkerRun react target rounds st).1.enq) ∧
    (i ∈ mst.seen → i ∉ mst.enq → i ∉ (mCollect target mrounds mst).1.enq) :=
  ⟨discoverItem_reacted_seen st item q a,
    fun h1 h2 => (walkerRun_pinned i react target rounds st ⟨h1, h2⟩).2,
    fun h1 h2 => (mCollect_pinned i target mrounds mst h1 h2).2⟩

/-- C10 witness: id 5, seen with reacted status, is not enqueued by a
later snapshot that reports it unreacted. -/
theorem C10_reacted_permanently_excluded_witness :
    (5 : Int) ∈ ({ initW with seen := [5] } : WState).seen ∧
    (5 : Int) ∉ (walkerRun (fun _ => true) 1
      [⟨false, false, false, .ok [⟨100, "a", some ⟨5, []⟩, none⟩], some 7, false⟩]
      { initW with seen := [5] }).1.enq :=
  ⟨by decide,
    (C10_reacted_permanently_excluded { initW with seen := [5] }
      ⟨100, "a", some ⟨5, []⟩, none⟩ [] ⟨5, []⟩ 5 (fun _ => true) 1
      [⟨false, false, false, .ok [⟨100, "a", some ⟨5, []⟩, none⟩], some 7, false⟩]
      initM []).2.1 (by decide) (by decide)⟩

/-- C4 counterexample: in main.go's walker a decode failure does not
transition to the scroll phase and does not continue the loop - the
collection loop ends at once (MExit.parseError), and the next round's
fresh unreacted item with id 2 is never discovered: the final seen set
is just the id 1 of the round before the failure. -/
theorem C4_counterexample :
    (mCollect 5
      [⟨false, .ok [⟨100, "a", some ⟨1, []⟩, none⟩], some 10, false⟩,
       ⟨false, .decodeErr, some 20, false⟩,
       ⟨false, .ok [⟨200, "a", some ⟨2, []⟩, none⟩], some 30, false⟩]
      initM).2 = MExit.parseError ∧
    (mCollect 5
      [⟨false, .ok [⟨100, "a", some ⟨1, []⟩, none⟩], some 10, false⟩,
       ⟨false, .decodeErr, some 20, false⟩,
       ⟨false, .ok [⟨200, "a", some ⟨2, []⟩, none⟩], some 30, false⟩]
      initM).1.seen = [1] :=
  ⟨rfl, rfl⟩

/-- C4 amended: in the interleaved walker (part_001, send_reaction.go) a
decode failure is non-fatal, is not retried, and jumps straight to the
scroll phase, continuing the loop from there; in main.go's two-phase
walker a decode failure instead ends the collection loop at once
(without retry), after which the already-collected queue is dispatched
rather than the run aborting. -/
theorem C4_decode_failure_handling (react : String → Bool) (target : Nat)
    (r : Round) (rest : List Round) (st : WState) (ctxErr : Nat → Bool)
    (mtarget : Nat) (mr : MRound) (mrest : List MRound) (mst : MState)
    (mrounds : List MRound) :
    (st.success < target → r.deadline = false →
      ¬(r.guardOff = true ∧ r.guardFail = true) → r.fetch = .decodeErr →
      walkerRound react target r st = scrollStep r target st ∧
      (scrollStep r target st).1.seen = st.seen ∧
      (scrollStep r target st).1.enq = st.enq ∧
      (scrollStep r target st).1.disp = st.disp ∧
      ((scrollStep r target st).2 = none →
        walkerRun react target (r :: rest) st =
          walkerRun react target rest (scrollStep r target st).1)) ∧
    (mst.queue.length < mtarget → mr.deadline = false → mr.fetch = .decodeErr →
      mCollect mtarget (mr :: mrest) mst = (mst, .parseError)) ∧
    ((mCollect mtarget mrounds initM).2 = .parseError →
      (processTimelineMain react ctxErr mtarget mrounds).isErr = false) := by
  refine ⟨?_, ?_, ?_⟩
  · intro h1 h2 h3 h4
    have hdec := walkerRound_decodeErr react target r st h1 h2 h3 h4
    have hfr := scrollStep_frame r target st
    refine ⟨hdec, hfr.1, hfr.2.1, hfr.2.2.1, ?_⟩
    intro hnone
    rw [walkerRun_cons, hdec]
    cases hE : scrollStep r target st with
    | mk st1 eopt =>
      rw [hE] at hnone
      simp only at hnone
      subst hnone
      simp only
  · intro h1 h2 h3
    rw [mCollect_cons, mCollectRound_decodeErr mtarget mr mst h1 h2 h3]
  · intro h
    exact (processTimelineMain_noErr react ctxErr mtarget mrounds (by simp [h])).1

/-- C4 witness: a concrete decode-failure round ends main.go's collection
with the state unchanged. -/
theorem C4_decode_failure_handling_witness :
    mCollect 1 [⟨false, Fetch.decodeErr, some 1, false⟩] initM =
      (initM, MExit.parseError) :=
  (C4_decode_failure_handling (fun _ => true) 1
    ⟨false, false, false, .decodeErr, some 7, false⟩ [] initW (fun _ => false) 1
    ⟨false, Fetch.decodeErr, some 1, false⟩ [] initM []).2.1 (by decide) rfl rfl

/-- C6 counterexample: main.go's 5-threshold collector terminates by
stagnation after five no-new-content rounds even though the reported
page height changes on every round (0 then 10, 20, 30, 40), so
termination there does not require an unchanged height. -/
theorem C6_counterexample :
    (mCollect 1
      [⟨false, .ok [], some 10, false⟩, ⟨false, .ok [], some 20, false⟩,
       ⟨false, .ok [], some 30, false⟩, ⟨false, .ok [], some 40, false⟩,
       ⟨false, .ok [], some 50, false⟩, ⟨false, .ok [], some 60, false⟩]
      initM).2 = MExit.stagnant ∧
    (10 : Int) ≠ 0 ∧ (20 : Int) ≠ 10 ∧ (30 : Int) ≠ 20 ∧ (40 : Int) ≠ 30 :=
  ⟨rfl, by decide, by decide, by decide, by decide⟩

/-- C6 amended: a feed that stops producing previously-unseen unreacted
ids makes both walkers terminate within their stagnant-round threshold
(3 in the interleaved walker, provided the height also stops changing;
5 in the main.go collector, for any heights); and in the interleaved
walker a stagnation exit indeed requires both the unchanged height and
a stagnant-round count of at least 3, whereas in the 5-threshold
collector the count alone suffices. -/
theorem C6_termination_guarantee (react : String → Bool) (target : Nat)
    (seen0 : List Int) (h : Int) (rs : List Round) (st : WState) (mtarget : Nat)
    (mseen0 : List Int) (mrs : List MRound) (mst : MState) (r : Round) (t2 : Nat)
    (st2 : WState) :
    ((∀ r2 ∈ rs, StaleWRound seen0 h r2) → seen0 ⊆ st.seen → st.success < target →
      3 ≤ st.noNew + rs.length → 2 ≤ rs.length →
      (walkerRun react target rs st).2 = .stagnant) ∧
    ((∀ r2 ∈ mrs, StaleMRound mseen0 r2) → mseen0 ⊆ mst.seen →
      mst.queue.length < mtarget → 5 ≤ mst.noNew + mrs.length → 1 ≤ mrs.length →
      (mCollect mtarget mrs mst).2 = .stagnant) ∧
    ((scrollStep r t2 st2).2 = some .stagnant →
      r.height = some st2.lastHeight ∧ 3 ≤ st2.noNew) := by
  refine ⟨walkerRun_stale react target seen0 h rs st,
    mCollect_stale mtarget mseen0 mrs mst, ?_⟩
  intro hst
  unfold scrollStep at hst
  by_cases ha : t2 ≤ st2.success
  · rw [if_pos ha] at hst
    simp at hst
  · rw [if_neg ha] at hst
    cases hh : r.height with
    | none =>
      rw [hh] at hst
      simp at hst
    | some hv =>
      rw [hh] at hst
      simp only at hst
      by_cases hc : 0 < st2.noNew ∧ hv = st2.lastHeight ∧ 3 ≤ st2.noNew
      · exact ⟨by rw [hc.2.1], hc.2.2⟩
      · rw [if_neg hc] at hst
        split_ifs at hst
        all_goals simp at hst

/-- C6 witness: three concrete stagnant rounds with constant height 7
terminate the interleaved walker by stagnation. -/
theorem C6_termination_guarantee_witness :
    (walkerRun (fun _ => true) 1
      [⟨false, false, false, .ok [], some 7, false⟩,
       ⟨false, false, false, .ok [], some 7, false⟩,
       ⟨false, false, false, .ok [], some 7, false⟩] initW).2 = Exit.stagnant :=
  (C6_termination_guarantee (fun _ => true) 1 [] 7
    [⟨false, false, false, .ok [], some 7, false⟩,
     ⟨false, false, false, .ok [], some 7, false⟩,
     ⟨false, false, false, .ok [], some 7, false⟩] initW 1 [] [] initM
    ⟨false, false, false, .ok [], some 7, false⟩ 1 initW).1
    (by
      intro r2 hr2
      simp only [List.mem_cons, List.not_mem_nil, or_false] at hr2
      rcases hr2 with rfl | rfl | rfl <;>
        exact ⟨rfl, by simp, rfl, rfl, [], rfl, by simp⟩)
    (by simp) (by decide) (by decide) (by decide)

/-- C7 counterexample: when the overall deadline fires at the head of a
collection round, main.go's processTimeline returns (nil, ctx.Err()) -
the error flag is set and the returned url list is empty - even though a
collected url had been accumulated; the partial progress is discarded,
not returned. -/
theorem C7_counterexample :
    (processTimelineMain (fun _ => true) (fun _ => false) 2
      [⟨false, .ok [⟨100, "a", some ⟨1, []⟩, none⟩], some 10, false⟩,
       ⟨true, .ok [], some 20, false⟩]).isErr = true ∧
    (processTimelineMain (fun _ => true) (fun _ => false) 2
      [⟨false, .ok [⟨100, "a", some ⟨1, []⟩, none⟩], some 10, false⟩,
       ⟨true, .ok [], some 20, false⟩]).urls = [] ∧
    (mCollect 2
      [⟨false, .ok [⟨100, "a", some ⟨1, []⟩, none⟩], some 10, false⟩,
       ⟨true, .ok [], some 20, false⟩] initM).1.queue =
      [⟨"https://yamap.com/activities/1"⟩] :=
  ⟨rfl, rfl, rfl⟩

/-- C7 amended: deadline expiry during the collection phase of main.go's
processTimeline is propagated as a hard error with a nil url list,
discarding the collected queue; only expiry between items of the
dispatch phase stops the loop cleanly, returning the urls accumulated so
far without an error. -/
theorem C7_deadline_handling (react : String → Bool) (ctxErr : Nat → Bool)
    (target : Nat) (rounds : List MRound) (a : ActivityInfo)
    (rest : List ActivityInfo) (k : Nat) (acc dtrace : List String) :
    ((mCollect target rounds initM).2 = .deadline →
      (processTimelineMain react ctxErr target rounds).urls = [] ∧
      (processTimelineMain react ctxErr target rounds).isErr = true) ∧
    ((mCollect target rounds initM).2 ≠ .deadline →
      (processTimelineMain react ctxErr target rounds).isErr = false) ∧
    (ctxErr k = true →
      mDispatch react ctxErr (a :: rest) k acc dtrace =
        ((if react a.url then acc ++ [a.url] else acc), dtrace ++ [a.url])) :=
  ⟨processTimelineMain_deadline react ctxErr target rounds,
    fun h => (processTimelineMain_noErr react ctxErr target rounds h).1,
    mDispatch_break react ctxErr a rest k acc dtrace⟩

/-- C7 witness: a dispatch-phase deadline after the first item stops the
loop with that item's outcome kept. -/
theorem C7_deadline_handling_witness :
    mDispatch (fun _ => true) (fun _ => true) [⟨"u"⟩, ⟨"v"⟩] 0 [] [] =
      (["u"], ["u"]) :=
  (C7_deadline_handling (fun _ => true) (fun _ => true) 1 [] ⟨"u"⟩ [⟨"v"⟩] 0
    [] []).2.2 rfl

/-- C8 counterexample: with the direct-evaluation reader an absent (null)
feed state yields the same successful empty-feed outcome as a payload
decoding to an empty list - Except.ok [] in both cases - so there is no
distinct error outcome and the absent-state case is not distinguishable
from a successful read of an empty feed. -/
theorem C8_counterexample :
    parseNuxtData (fun s => if s = "[]" then some [] else none) (.raw "null") =
      .ok [] ∧
    parseNuxtData (fun s => if s = "[]" then some [] else none) (.raw "[]") =
      .ok [] :=
  ⟨rfl, rfl⟩

/-- C8 amended: an absent or null client-side state is non-fatal in both
readers, but only the wait/poll and regex variants treat it as a
distinct no-data outcome that transitions straight to the scroll phase;
the direct-evaluation reader parseNuxtData folds a null state into a
successful empty feed read (and only an evaluation failure is an
error). -/
theorem C8_no_data_handling (decode : String → Option (List FeedItem))
    (react : String → Bool) (target : Nat) (r : Round) (st : WState) :
    parseNuxtData decode (.raw "null") = .ok [] ∧
    parseNuxtData decode .errored = .error .evalFailed ∧
    (st.success < target → r.deadline = false →
      ¬(r.guardOff = true ∧ r.guardFail = true) → r.fetch = .waitErr →
      walkerRound react target r st = scrollStep r target st) :=
  ⟨rfl, rfl, walkerRound_waitErr react target r st⟩

/-- C8 witness: a concrete absent-data round of the interleaved walker
reduces to its scroll phase. -/
theorem C8_no_data_handling_witness :
    walkerRound (fun _ => true) 1 ⟨false, false, false, .waitErr, some 7, false⟩
      initW = scrollStep ⟨false, false, false, .waitErr, some 7, false⟩ 1 initW :=
  (C8_no_data_handling (fun _ => none) (fun _ => true) 1
    ⟨false, false, false, .waitErr, some 7, false⟩ initW).2.2 (by decide) rfl
    (by simp) rfl

/-- C9 counterexample: even for a successful dispatch the driver is left
on the timeline URL, not the item URL - the dispatcher itself performs
the navigation back to the feed in its deferred step. -/
theorem C9_counterexample :
    (sendReaction true (fun _ => none) (fun _ => true) true
      "https://yamap.com/activities/1" "https://yamap.com/timeline"
      ⟨"https://yamap.com/timeline"⟩).liked = true ∧
    (sendReaction true (fun _ => none) (fun _ => true) true
      "https://yamap.com/activities/1" "https://yamap.com/timeline"
      ⟨"https://yamap.com/timeline"⟩).driver.page = "https://yamap.com/timeline" ∧
    ("https://yamap.com/timeline" : String) ≠ "https://yamap.com/activities/1" :=
  ⟨rfl, rfl, by decide⟩

/-- C9 amended: for every dispatch call and every outcome, whenever the
deferred return navigation succeeds the dispatcher itself leaves the
driver on the timeline URL before returning - the return to the feed is
performed by sendReaction's deferred step, not left to the caller. -/
theorem C9_dispatcher_returns_to_feed (navOk : Bool) (attempt : Nat → Option String)
    (reloadOk : Nat → Bool) (url timelineURL : String) (d : Driver) :
    (sendReaction navOk attempt reloadOk true url timelineURL d).driver.page =
      timelineURL :=
  rfl

end YamapSpec
